import Mathlib

/-!
Verification of the obot-platform/catalog-service ingestion pipeline.

This file gives a shallow embedding, in Lean 4, of the repository-ingestion
and enrichment logic of the catalog service:

* `pkg/types`      — the `RepoInfo`, `MCPServerConfig`, … data model;
* `pkg/utils`      — `SaveRepo`, `MarkPreferred`, `AnalyzeWithOpenAI`,
  `UpdateRepo` (the package version of the ingestion tail);
* `pkg/server/collect.go` — `AddRepo` (the inline ingestion flow) and the
  discovery deduplication loop of `searchReposByReadme`.

External collaborators (the GitHub API, the OpenAI completion endpoint and
the SQL store) are modelled at their interfaces: fetched GitHub data, the
oracle response and the backfill outcome are inputs to the embedded
functions, the store is the row addressed by the candidate's full name
(an `Option RepoRow`), and Go's JSON marshal/unmarshal of the opaque
string blobs is a `JsonCodec` parameter.  Every embedded function also
reports the sequence of store effects (reads/writes) it performed, so
"nothing was persisted" claims can be stated exactly.
-/

namespace CatalogService

/-- Character-list helper: `pat` occurs at the very start of `s`. -/
def charsStartWith : List Char → List Char → Bool
  | [], _ => true
  | _ :: _, [] => false
  | a :: as, b :: bs => a == b && charsStartWith as bs

/-- Character-list helper: `pat` occurs somewhere inside `s`. -/
def charsContain (pat : List Char) : List Char → Bool
  | [] => pat.isEmpty
  | b :: bs => charsStartWith pat (b :: bs) || charsContain pat bs

/-- Go `strings.Contains s pat`: `pat` occurs as a substring of `s`. -/
def strContains (s pat : String) : Bool :=
  charsContain pat.data s.data

/-- Split a character list on a separator character; `[[]]` on the empty
list, so that the string version matches Go `strings.Split` for a
single-character separator. -/
def splitCharsOn (sep : Char) : List Char → List (List Char)
  | [] => [[]]
  | c :: cs =>
    let rest := splitCharsOn sep cs
    if c == sep then [] :: rest
    else
      match rest with
      | [] => [[c]]
      | h :: t => (c :: h) :: t

/-- Go `strings.Split s sep` for a single-character separator (the source
only ever splits on `"/"` and `","`). -/
def splitOnChar (sep : Char) (s : String) : List String :=
  (splitCharsOn sep s.data).map String.mk

/-- Go `strings.Join parts sep`. -/
def joinWith (sep : String) : List String → String
  | [] => ""
  | [x] => x
  | x :: xs => x ++ sep ++ joinWith sep xs

/-- `strings.Join(parts[:len(parts)-1], "/")`, as used by `AddRepo` to
derive the sub-directory suffix of a README path. -/
def dirJoin (parts : List String) : String :=
  joinWith "/" parts.dropLast

/-- `pkg/types` `MCPPair`. -/
structure MCPPair where
  Key : String := ""
  Value : String := ""
  Name : String := ""
  Description : String := ""
  Required : Bool := false
  Sensitive : Bool := false
deriving DecidableEq, Repr

/-- `pkg/types` `MCPServerConfig`. -/
structure MCPServerConfig where
  Env : List MCPPair := []
  Command : String := ""
  Args : List String := []
  HTTPHeaders : List MCPPair := []
  URL : String := ""
  URLDescription : String := ""
  Preferred : Bool := false
deriving DecidableEq, Repr

/-- `pkg/types` `MCPServerManifest` (the oracle's decoded response). -/
structure MCPServerManifest where
  Name : String := ""
  Description : String := ""
  Category : String := ""
  Configs : List MCPServerConfig := []
deriving DecidableEq, Repr

/-- `pkg/types` `RepoInfo`.  The `ProposedManifest` field appears in the
snapshot of the package used by `SaveRepo`/`UpdateRepo`. -/
structure RepoInfo where
  ID : Int := 0
  Path : String := ""
  DisplayName : String := ""
  FullName : String := ""
  URL : String := ""
  Description : String := ""
  Stars : Int := 0
  ReadmeContent : String := ""
  Language : String := ""
  Metadata : String := ""
  License : String := ""
  Icon : String := ""
  Manifest : String := ""
  ProposedManifest : String := ""
  ToolDefinitions : String := ""
deriving DecidableEq, Repr

/-- One stored row of the `repositories` table, restricted to the columns
the ingestion pipeline touches.  `proposedManifest` is `none` when the
column is SQL NULL (the INSERT statement does not set it). -/
structure RepoRow where
  fullName : String := ""
  url : String := ""
  description : String := ""
  displayName : String := ""
  stars : Int := 0
  readmeContent : String := ""
  language : String := ""
  path : String := ""
  manifest : String := ""
  icon : String := ""
  metadata : String := ""
  toolDefinitions : String := ""
  proposedManifest : Option String := none
deriving DecidableEq, Repr

/-- Store effects performed by the pipeline against the `repositories`
table (SELECTs versus INSERT/UPDATE executions). -/
inductive StoreEff where
  | read : StoreEff
  | write : StoreEff
deriving DecidableEq, Repr

/-- `utils.SaveRepo` (pkg/utils, lines 253-301 of the package source):
upsert of one record keyed by full name.  `store` is the row currently at
`repo.FullName` (Go discovers it with the COUNT query).  On update with
`proposed = false` every column including `manifest` is overwritten and
`proposed_manifest` is reset to the `"{}"` placeholder; with
`proposed = true` every column except `manifest` is overwritten and the
fresh `ProposedManifest` lands in `proposed_manifest`.  On insert the
`proposed_manifest` column is not in the column list (stays NULL) and an
empty `Metadata` defaults to `"{}"`. -/
def SaveRepo (store : Option RepoRow) (repo : RepoInfo) (proposed : Bool) : RepoRow :=
  match store with
  | some old =>
    if !proposed then
      { fullName := old.fullName
        url := repo.URL
        description := repo.Description
        displayName := repo.DisplayName
        stars := repo.Stars
        readmeContent := repo.ReadmeContent
        language := repo.Language
        path := repo.Path
        manifest := repo.Manifest
        icon := repo.Icon
        metadata := repo.Metadata
        toolDefinitions := repo.ToolDefinitions
        proposedManifest := some "\x7b\x7d" }
    else
      { fullName := old.fullName
        url := repo.URL
        description := repo.Description
        displayName := repo.DisplayName
        stars := repo.Stars
        readmeContent := repo.ReadmeContent
        language := repo.Language
        path := repo.Path
        manifest := old.manifest
        icon := repo.Icon
        metadata := repo.Metadata
        toolDefinitions := repo.ToolDefinitions
        proposedManifest := some repo.ProposedManifest }
  | none =>
    { fullName := repo.FullName
      url := repo.URL
      description := repo.Description
      displayName := repo.DisplayName
      stars := repo.Stars
      readmeContent := repo.ReadmeContent
      language := repo.Language
      path := repo.Path
      manifest := repo.Manifest
      icon := repo.Icon
      metadata := if repo.Metadata == "" then "\x7b\x7d" else repo.Metadata
      toolDefinitions := repo.ToolDefinitions
      proposedManifest := none }

/-- Index of the first element satisfying `p` (the Go `for … range` loops
with `break` in `MarkPreferred`). -/
def firstIdxWith (p : MCPServerConfig → Bool) : List MCPServerConfig → Option Nat
  | [] => none
  | c :: cs => if p c then some 0 else (firstIdxWith p cs).map (· + 1)

/-- `configs[i].Preferred = true`: set the `Preferred` flag of the `i`-th
element, leaving everything else alone. -/
def setPreferredAt : List MCPServerConfig → Nat → List MCPServerConfig
  | [], _ => []
  | c :: cs, 0 => { c with Preferred := true } :: cs
  | c :: cs, n + 1 => c :: setPreferredAt cs n

/-- `utils.MarkPreferred`: pick the first `npx` config, else the first
`uv`/`uvx` config, else the first `docker` config, and set its `Preferred`
flag (no flag is cleared). -/
def MarkPreferred (configs : List MCPServerConfig) : List MCPServerConfig :=
  match firstIdxWith (fun c => c.Command == "npx") configs with
  | some i => setPreferredAt configs i
  | none =>
    match firstIdxWith (fun c => c.Command == "uv" || c.Command == "uvx") configs with
    | some i => setPreferredAt configs i
    | none =>
      match firstIdxWith (fun c => c.Command == "docker") configs with
      | some i => setPreferredAt configs i
      | none => configs

/-- The categories merge of `utils.UpdateRepo` (lines 490-499 of the
package source): split the stored `metadata["categories"]` value on commas,
set `verified` when the pieces do NOT contain `"Verified"`, and append
`",Verified"` to the freshly analyzed category string when `verified`. -/
def updateRepoCategories (existingValue analysisCategory : String) : String :=
  let existingCategories := splitOnChar ',' existingValue
  let verified := !(existingCategories.contains "Verified")
  if verified then analysisCategory ++ ",Verified" else analysisCategory

/-- Go `map[string]string` read with the zero-value default. -/
def mapGet (m : List (String × String)) (k : String) : String :=
  match m.find? (fun p => p.1 == k) with
  | some p => p.2
  | none => ""

/-- Go `map[string]string` assignment `m[k] = v`. -/
def mapSet (m : List (String × String)) (k v : String) : List (String × String) :=
  if m.any (fun p => p.1 == k) then
    m.map (fun p => if p.1 == k then (k, v) else p)
  else
    m ++ [(k, v)]

/-- The Go-side JSON encoding/decoding of the string-typed blobs.  These
are `encoding/json` stdlib calls, external to the repository's logic, so
they are parameters of the embedding.  (`json.Marshal` of the plain
struct/map types involved cannot fail in Go, so the marshal directions are
total.) -/
structure JsonCodec where
  marshalConfigs : List MCPServerConfig → String
  marshalMeta : List (String × String) → String
  unmarshalMeta : String → Except String (List (String × String))
  parseManifest : String → Except String MCPServerManifest

/-- `utils.AnalyzeWithOpenAI`, with the completion call abstracted as its
outcome: either a transport error or the list of choice contents.  The Go
function propagates an API error, rejects an empty choice list, and
surfaces a JSON-parse failure of the first choice's content. -/
def AnalyzeWithOpenAI (codec : JsonCodec) (apiResp : Except String (List String)) :
    Except String MCPServerManifest :=
  match apiResp with
  | .error e => .error ("OpenAI API error: " ++ e)
  | .ok [] => .error "no response from OpenAI"
  | .ok (c :: _) =>
    match codec.parseManifest c with
    | .error e => .error ("error parsing OpenAI response: " ++ e)
    | .ok r => .ok r

/-- The fields of the fetched `github.Repository` that `AddRepo` reads. -/
structure GithubRepo where
  FullName : String := ""
  Name : String := ""
  OwnerLogin : String := ""
  OwnerAvatarURL : String := ""
  HTMLURL : String := ""
  DefaultBranch : String := ""
  Description : String := ""
  StargazersCount : Int := 0
  Language : String := ""
deriving DecidableEq, Repr

/-- `AddRepo`'s full-name derivation: append the directory components of
`path` (everything but the filename) to the repository's full name. -/
def computeFullName (ghFullName path : String) : String :=
  let parts := splitOnChar '/' path
  if parts.length > 1 then ghFullName ++ "/" ++ dirJoin parts else ghFullName

/-- `AddRepo`'s URL derivation: a branch-relative tree link when the
README sits in a subdirectory. -/
def computeRepoURL (htmlURL defaultBranch path : String) : String :=
  let parts := splitOnChar '/' path
  if parts.length > 1 then htmlURL ++ "/tree/" ++ defaultBranch ++ "/" ++ dirJoin parts
  else htmlURL

/-- The keyword pre-filter of `AddRepo`: reject when the README contains
none of `mcpServers`, `npx`, `docker`, `uv`. -/
def readmeRejected (readmeContent : String) : Bool :=
  !strContains readmeContent "mcpServers" && !strContains readmeContent "npx" &&
    !strContains readmeContent "docker" && !strContains readmeContent "uv"

/-- The `repoFromDB` value of `AddRepo` (collect.go lines 242-243): the
scanned columns when the row exists, Go zero values when the
`QueryRow().Scan` errors because no row matched. -/
def repoInfoFromDB (store : Option RepoRow) : RepoInfo :=
  match store with
  | some row =>
    { ReadmeContent := row.readmeContent
      Manifest := row.manifest
      Metadata := row.metadata
      ToolDefinitions := row.toolDefinitions }
  | none => {}

/-- The common tail of `AddRepo` (collect.go lines 298-319) and
`utils.UpdateRepo` (lines 510-531), which are textually identical in the
source: look for a `Preferred` config, run the tool-definition backfill
when one exists and the current tool definitions (`tdState`, read from the
stored record) are empty/placeholder or `force` is set, substitute the
`"{}"` placeholder for an empty result, and hand the record to `SaveRepo`.
`preSave` is the trace of store reads the caller performed before this
point; `SaveRepo` itself contributes one read (the COUNT probe) and one
write. -/
def ingestFinish (repoInfo : RepoInfo) (configs : List MCPServerConfig)
    (tdState : String) (force : Bool) (backfillResult : Except String String)
    (store : Option RepoRow) (proposed : Bool) (fullName : String)
    (preSave : List StoreEff) : Except String Unit × Option RepoRow × List StoreEff :=
  let foundPreferred := configs.any (fun c => c.Preferred)
  let scraped : Except String RepoInfo :=
    if foundPreferred then
      if tdState == "" || tdState == "\x7b\x7d" || force then
        match backfillResult with
        | .error e =>
          .error ("error scraping tool definitions for repository " ++ fullName ++ ": " ++ e)
        | .ok td => .ok { repoInfo with ToolDefinitions := td }
      else .ok repoInfo
    else .ok repoInfo
  match scraped with
  | .error e => (.error e, store, preSave)
  | .ok ri =>
    let ri := if ri.ToolDefinitions == "" then { ri with ToolDefinitions := "\x7b\x7d" } else ri
    (.ok (), some (SaveRepo store ri proposed), preSave ++ [.read, .write])

/-- `AddRepo` of `pkg/server/collect.go` (lines 189-320), past the two
GitHub fetches (their results `gh`, `readmeContent` are inputs; a fetch
error returns before anything below runs).  `oracleResult` is the outcome
of the `utils.AnalyzeWithOpenAI` call and `backfillResult` the outcome of
`scrapeToolDefinitions`.  Returns the function result, the row stored at
the candidate's full name afterwards, and the store effects performed.
Analysis errors are logged only: execution falls through with the
zero-value `analysis`, exactly as in the Go source. -/
def AddRepo (gh : GithubRepo) (path readmeContent : String) (force : Bool)
    (store : Option RepoRow) (oracleResult : Except String MCPServerManifest)
    (backfillResult : Except String String) (codec : JsonCodec) :
    Except String Unit × Option RepoRow × List StoreEff :=
  let fullName := computeFullName gh.FullName path
  let repoURL := computeRepoURL gh.HTMLURL gh.DefaultBranch path
  if readmeRejected readmeContent then
    (.error ("no MCP server found in repository " ++ fullName), store, [])
  else
    let repoInfo : RepoInfo :=
      { FullName := fullName
        Path := path
        URL := repoURL
        Description := gh.Description
        Stars := gh.StargazersCount
        ReadmeContent := readmeContent
        Language := gh.Language
        Icon := gh.OwnerAvatarURL }
    let repoFromDB := repoInfoFromDB store
    if store.isSome && repoFromDB.ReadmeContent == readmeContent && !force then
      (.ok (), store, [.read])
    else
      let proposed := !((repoFromDB.Manifest == "" || repoFromDB.Manifest == "\x7b\x7d") || force)
      match oracleResult with
      | .error _ =>
        ingestFinish repoInfo [] repoFromDB.ToolDefinitions force backfillResult
          store proposed fullName [.read]
      | .ok analysis =>
        if analysis.Configs.length == 0 then
          (.error ("no MCP server found in repository " ++ fullName), store, [.read])
        else
          let configs := MarkPreferred analysis.Configs
          let manifestStr := codec.marshalConfigs configs
          let repoInfo :=
            if proposed then { repoInfo with ProposedManifest := manifestStr }
            else { repoInfo with Manifest := manifestStr }
          match (if repoInfo.Metadata == "" then Except.ok [] else codec.unmarshalMeta repoInfo.Metadata) with
          | .error e =>
            (.error ("error unmarshalling metadata for repository " ++ fullName ++ ": " ++ e),
              store, [.read])
          | .ok metadata0 =>
            let metadata := mapSet metadata0 "categories" analysis.Category
            let repoInfo :=
              { repoInfo with
                Metadata := codec.marshalMeta metadata
                Description := analysis.Description
                DisplayName := analysis.Name }
            ingestFinish repoInfo configs repoFromDB.ToolDefinitions force backfillResult
              store proposed fullName [.read]

/-- `utils.UpdateRepo` (pkg/utils, lines 454-533): the package version of
the ingestion tail, operating on a record `repo` already loaded from the
store.  Unlike the inline `AddRepo` merge it runs the Verified-toggle
categories logic and uses the record's own `Metadata`/`ToolDefinitions`. -/
def UpdateRepo (repo : RepoInfo) (force : Bool) (fullName : String)
    (store : Option RepoRow) (oracleResult : Except String MCPServerManifest)
    (backfillResult : Except String String) (codec : JsonCodec) :
    Except String Unit × Option RepoRow × List StoreEff :=
  let proposed := !((repo.Manifest == "" || repo.Manifest == "\x7b\x7d") || force)
  match oracleResult with
  | .error _ =>
    ingestFinish repo [] repo.ToolDefinitions force backfillResult store proposed fullName []
  | .ok analysis =>
    if analysis.Configs.length == 0 then
      (.error ("no MCP server found in repository " ++ fullName), store, [])
    else
      let configs := MarkPreferred analysis.Configs
      let manifestStr := codec.marshalConfigs configs
      let repo :=
        if proposed then { repo with ProposedManifest := manifestStr }
        else { repo with Manifest := manifestStr }
      match (if repo.Metadata == "" then Except.ok [] else codec.unmarshalMeta repo.Metadata) with
      | .error e =>
        (.error ("error unmarshalling metadata for repository " ++ fullName ++ ": " ++ e),
          store, [])
      | .ok metadata0 =>
        let categories := updateRepoCategories (mapGet metadata0 "categories") analysis.Category
        let metadata := mapSet metadata0 "categories" categories
        let repo :=
          { repo with
            Metadata := codec.marshalMeta metadata
            Description := analysis.Description
            DisplayName := analysis.Name }
        ingestFinish repo configs repo.ToolDefinitions force backfillResult
          store proposed fullName []

/-- `AddRepo` of the refactored collect.go snapshot (the version that
delegates to `utils.UpdateRepo`): same pre-filter, but the skip branch for
an unchanged README opportunistically fills a missing icon with the owner's
avatar URL, and otherwise the stored metadata is carried into the record
before delegation.  (That snapshot's companion `utils.UpdateRepo` is not
under `src/`; the `UpdateRepo` above, from the utils package that is in
`src/`, stands in for the delegated tail.) -/
def AddRepoV2 (gh : GithubRepo) (path readmeContent : String) (force : Bool)
    (store : Option RepoRow) (oracleResult : Except String MCPServerManifest)
    (backfillResult : Except String String) (codec : JsonCodec) :
    Except String Unit × Option RepoRow × List StoreEff :=
  let fullName := computeFullName gh.FullName path
  let repoURL := computeRepoURL gh.HTMLURL gh.DefaultBranch path
  if readmeRejected readmeContent then
    (.error ("no MCP server found in repository " ++ fullName), store, [])
  else
    let repoInfo : RepoInfo :=
      { FullName := fullName
        Path := path
        URL := repoURL
        Description := gh.Description
        Stars := gh.StargazersCount
        ReadmeContent := readmeContent
        Language := gh.Language
        Icon := gh.OwnerAvatarURL }
    match store with
    | some row =>
      if row.readmeContent == readmeContent && !force then
        if row.icon == "" then
          (.ok (), some { row with icon := gh.OwnerAvatarURL }, [.read, .write])
        else
          (.ok (), some row, [.read])
      else
        let repoInfo := { repoInfo with Metadata := row.metadata }
        let r := UpdateRepo repoInfo force fullName store oracleResult backfillResult codec
        (r.1, r.2.1, .read :: r.2.2)
    | none =>
      let r := UpdateRepo repoInfo force fullName store oracleResult backfillResult codec
      (r.1, r.2.1, .read :: r.2.2)

/-- The fields of a `github.CodeResult` that the discovery loop reads. -/
structure CodeResult where
  fullName : String := ""
  ownerLogin : String := ""
  name : String := ""
  path : String := ""
deriving DecidableEq, Repr

/-- The deduplication key of `searchReposByReadme` (collect.go line 165):
`*repo.Repository.FullName + ":" + *repo.Path`. -/
def dedupKey (r : CodeResult) : String :=
  r.fullName ++ ":" ++ r.path

/-- The deduplication loop of `searchReposByReadme` (collect.go lines
159-171): walk the collected results, keep the first occurrence of each
key, remember keys in the `seen` set. -/
def dedupLoop : List CodeResult → List String → List CodeResult
  | [], _ => []
  | r :: rs, seen =>
    if dedupKey r ∈ seen then dedupLoop rs seen
    else r :: dedupLoop rs (dedupKey r :: seen)

/-- The deduplicated candidate list (`uniqueRepos`). -/
def dedupRepos (rs : List CodeResult) : List CodeResult :=
  dedupLoop rs []

/-- A concrete codec instance used by the witness theorems (the pipeline
never inspects the blobs it marshals, so constants suffice). -/
def sampleCodec : JsonCodec where
  marshalConfigs := fun _ => "[marshalled-configs]"
  marshalMeta := fun _ => "marshalled-meta"
  unmarshalMeta := fun _ => .ok []
  parseManifest := fun _ => .error "schema mismatch"

/-- Concrete fetched repository data used by the witness theorems. -/
def sampleGithubRepo : GithubRepo where
  FullName := "octo/mcp"
  Name := "mcp"
  OwnerLogin := "octo"
  OwnerAvatarURL := "https://avatar"
  HTMLURL := "https://repo"
  DefaultBranch := "main"
  Description := "gh description"
  StargazersCount := 7
  Language := "Go"

/-- A concrete stored row (non-empty accepted manifest, non-placeholder
tool definitions) used by the witness theorems. -/
def sampleRow : RepoRow where
  fullName := "octo/mcp"
  readmeContent := "old readme npx"
  manifest := "[existing]"
  metadata := "meta"
  toolDefinitions := "tools"
  icon := ""

/-! ## Helper lemmas -/

/-- `ingestFinish` with no preferred config never invokes the backfill:
whatever `backfillResult` holds, it reaches `SaveRepo` with the incoming
record (up to the tool-definitions placeholder substitution). -/
theorem ingestFinish_no_preferred (repoInfo : RepoInfo) (configs : List MCPServerConfig)
    (tdState : String) (force : Bool) (backfillResult : Except String String)
    (store : Option RepoRow) (proposed : Bool) (fullName : String) (pre : List StoreEff)
    (hfp : configs.any (fun c => c.Preferred) = false) :
    ∃ ri, ingestFinish repoInfo configs tdState force backfillResult store proposed fullName pre
        = (.ok (), some (SaveRepo store ri proposed), pre ++ [.read, .write])
      ∧ ri.ProposedManifest = repoInfo.ProposedManifest
      ∧ ri.Manifest = repoInfo.Manifest
      ∧ ri.Metadata = repoInfo.Metadata
      ∧ ri.DisplayName = repoInfo.DisplayName := by
  unfold ingestFinish
  by_cases hph : repoInfo.ToolDefinitions == ""
  · exact ⟨{ repoInfo with ToolDefinitions := "\x7b\x7d" },
      by simp [hfp, hph], rfl, rfl, rfl, rfl⟩
  · exact ⟨repoInfo, by simp [hfp, hph], rfl, rfl, rfl, rfl⟩

/-- `ingestFinish` with a successful (or skipped) backfill always reaches
`SaveRepo`: the result is success, one read and one write are appended to
the trace, and the saved record agrees with the incoming one on every
field except possibly `ToolDefinitions`. -/
theorem ingestFinish_ok (repoInfo : RepoInfo) (configs : List MCPServerConfig)
    (tdState : String) (force : Bool) (td : String) (store : Option RepoRow)
    (proposed : Bool) (fullName : String) (pre : List StoreEff) :
    ∃ ri, ingestFinish repoInfo configs tdState force (.ok td) store proposed fullName pre
        = (.ok (), some (SaveRepo store ri proposed), pre ++ [.read, .write])
      ∧ ri.ProposedManifest = repoInfo.ProposedManifest
      ∧ ri.Manifest = repoInfo.Manifest
      ∧ ri.Metadata = repoInfo.Metadata
      ∧ ri.DisplayName = repoInfo.DisplayName := by
  unfold ingestFinish
  cases hfp : configs.any (fun c => c.Preferred) with
  | false =>
    by_cases hph : repoInfo.ToolDefinitions == ""
    · exact ⟨{ repoInfo with ToolDefinitions := "\x7b\x7d" },
        by simp [hfp, hph], rfl, rfl, rfl, rfl⟩
    · exact ⟨repoInfo, by simp [hfp, hph], rfl, rfl, rfl, rfl⟩
  | true =>
    by_cases htd : (tdState == "" || tdState == "\x7b\x7d" || force)
    · by_cases hph : td == ""
      · exact ⟨{ repoInfo with ToolDefinitions := "\x7b\x7d" },
          by simp [hfp, htd, hph], rfl, rfl, rfl, rfl⟩
      · exact ⟨{ repoInfo with ToolDefinitions := td },
          by simp [hfp, htd, hph], rfl, rfl, rfl, rfl⟩
    · by_cases hph : repoInfo.ToolDefinitions == ""
      · exact ⟨{ repoInfo with ToolDefinitions := "\x7b\x7d" },
          by simp [hfp, htd, hph], rfl, rfl, rfl, rfl⟩
      · exact ⟨repoInfo, by simp [hfp, htd, hph], rfl, rfl, rfl, rfl⟩

/-- `ingestFinish` when the backfill is actually invoked and fails: the
error is returned, nothing is appended to the trace, and the store is
handed back untouched. -/
theorem ingestFinish_backfill_error (repoInfo : RepoInfo) (configs : List MCPServerConfig)
    (tdState : String) (force : Bool) (e : String) (store : Option RepoRow)
    (proposed : Bool) (fullName : String) (pre : List StoreEff)
    (hfp : configs.any (fun c => c.Preferred) = true)
    (htd : (tdState == "" || tdState == "\x7b\x7d" || force) = true) :
    ingestFinish repoInfo configs tdState force (.error e) store proposed fullName pre
      = (.error ("error scraping tool definitions for repository " ++ fullName ++ ": " ++ e),
         store, pre) := by
  unfold ingestFinish
  simp [hfp, htd]

/-- `firstIdxWith` returns `none` precisely when no element satisfies the
predicate. -/
theorem firstIdxWith_eq_none (p : MCPServerConfig → Bool) (l : List MCPServerConfig) :
    firstIdxWith p l = none ↔ ∀ c ∈ l, p c = false := by
  induction l with
  | nil => simp [firstIdxWith]
  | cons a t ih =>
    by_cases h : p a
    · simp [firstIdxWith, h]
    · simp only [firstIdxWith, h, Bool.false_eq_true, if_false, Option.map_eq_none',
        List.mem_cons]
      constructor
      · intro hn c hc
        rcases hc with rfl | hct
        · simpa using h
        · exact (ih.mp hn) c hct
      · intro hall
        exact ih.mpr fun c hc => hall c (Or.inr hc)

/-- `firstIdxWith` returns an in-bounds index whose element satisfies the
predicate. -/
theorem firstIdxWith_eq_some (p : MCPServerConfig → Bool) (l : List MCPServerConfig)
    (i : Nat) (h : firstIdxWith p l = some i) :
    ∃ hi : i < l.length, p (l.get ⟨i, hi⟩) = true := by
  induction l generalizing i with
  | nil => simp [firstIdxWith] at h
  | cons a t ih =>
    by_cases hpa : p a
    · simp only [firstIdxWith, hpa, if_true, Option.some.injEq] at h
      subst h
      exact ⟨by simp, by simpa using hpa⟩
    · simp only [firstIdxWith, hpa, Bool.false_eq_true, if_false, Option.map_eq_some'] at h
      obtain ⟨j, hj, rfl⟩ := h
      obtain ⟨hjl, hpj⟩ := ih j hj
      exact ⟨by simpa using Nat.succ_lt_succ hjl, by simpa using hpj⟩

/-- Setting the flag at an in-bounds index of an all-unmarked list leaves
exactly one marked element. -/
theorem setPreferredAt_countP (l : List MCPServerConfig) (i : Nat)
    (hall : ∀ c ∈ l, c.Preferred = false) (hi : i < l.length) :
    (setPreferredAt l i).countP (fun c => c.Preferred) = 1 := by
  induction l generalizing i with
  | nil => simp at hi
  | cons a t iht =>
    cases i with
    | zero =>
      have ht : t.countP (fun c => c.Preferred) = 0 :=
        List.countP_eq_zero.mpr fun c hc => by
          simp [hall c (List.mem_cons_of_mem _ hc)]
      simp [setPreferredAt, List.countP_cons, ht]
    | succ n =>
      have hna : a.Preferred = false := hall a (List.mem_cons_self _ _)
      have := iht n (fun c hc => hall c (List.mem_cons_of_mem _ hc)) (by simpa using hi)
      simp [setPreferredAt, List.countP_cons, hna, this]

/-- In an all-unmarked list, the unique marked element after
`setPreferredAt` is the element at the chosen index with its flag set. -/
theorem setPreferredAt_marked (l : List MCPServerConfig) (i : Nat)
    (hall : ∀ c ∈ l, c.Preferred = false) :
    ∀ c ∈ setPreferredAt l i, c.Preferred = true →
      ∃ hi : i < l.length, c = { l.get ⟨i, hi⟩ with Preferred := true } := by
  induction l generalizing i with
  | nil => intro c hc; simp [setPreferredAt] at hc
  | cons a t iht =>
    cases i with
    | zero =>
      intro c hc hp
      rcases List.mem_cons.mp hc with rfl | hct
      · exact ⟨by simp, by simp⟩
      · exact absurd hp (by simp [hall c (List.mem_cons_of_mem _ hct)])
    | succ n =>
      intro c hc hp
      rcases List.mem_cons.mp hc with rfl | hct
      · exact absurd hp (by simp [hall _ (List.mem_cons_self _ _)])
      · obtain ⟨hn, hceq⟩ :=
          iht n (fun d hd => hall d (List.mem_cons_of_mem _ hd)) c hct hp
        exact ⟨by simpa using Nat.succ_lt_succ hn, by simpa using hceq⟩

/-- `setPreferredAt` on an all-unmarked list out of several cases: the two
facts the main theorem needs, bundled. -/
theorem setPreferredAt_spec (l : List MCPServerConfig) (i : Nat)
    (p : MCPServerConfig → Bool)
    (hall : ∀ c ∈ l, c.Preferred = false)
    (hi : i < l.length) (hp : p (l.get ⟨i, hi⟩) = true)
    (hcmd : ∀ c : MCPServerConfig, p ({ c with Preferred := true }) = p c) :
    (setPreferredAt l i).countP (fun c => c.Preferred) = 1
    ∧ ∀ c ∈ setPreferredAt l i, c.Preferred = true → p c = true := by
  refine ⟨setPreferredAt_countP l i hall hi, ?_⟩
  intro c hc hcp
  obtain ⟨hi', hceq⟩ := setPreferredAt_marked l i hall c hc hcp
  subst hceq
  rw [hcmd]
  exact hp

/-! ## Claim theorems -/

/-- C9: `SaveRepo` on an existing record with `proposed = true` overwrites
every stored column other than `manifest` — `url`, `description`,
`displayName`, `stars`, `readmeContent`, `language`, `path`, `icon`,
`metadata`, `toolDefinitions`, and `proposedManifest` — with the freshly
derived values, and only the `manifest` column keeps its old value. -/
theorem saveRepo_proposed_overwrites_all_but_manifest (old : RepoRow) (repo : RepoInfo) :
    (SaveRepo (some old) repo true).url = repo.URL
    ∧ (SaveRepo (some old) repo true).description = repo.Description
    ∧ (SaveRepo (some old) repo true).displayName = repo.DisplayName
    ∧ (SaveRepo (some old) repo true).stars = repo.Stars
    ∧ (SaveRepo (some old) repo true).readmeContent = repo.ReadmeContent
    ∧ (SaveRepo (some old) repo true).language = repo.Language
    ∧ (SaveRepo (some old) repo true).path = repo.Path
    ∧ (SaveRepo (some old) repo true).icon = repo.Icon
    ∧ (SaveRepo (some old) repo true).metadata = repo.Metadata
    ∧ (SaveRepo (some old) repo true).toolDefinitions = repo.ToolDefinitions
    ∧ (SaveRepo (some old) repo true).proposedManifest = some repo.ProposedManifest
    ∧ (SaveRepo (some old) repo true).manifest = old.manifest :=
  ⟨rfl, rfl, rfl, rfl, rfl, rfl, rfl, rfl, rfl, rfl, rfl, rfl⟩

/-- C10: `SaveRepo` on an existing record with `proposed = false` (the
direct-accept path) writes the fresh manifest into the `manifest` column
and resets `proposedManifest` to the `"{}"` placeholder, discarding any
pending proposal. -/
theorem saveRepo_direct_resets_proposal (old : RepoRow) (repo : RepoInfo) :
    (SaveRepo (some old) repo false).proposedManifest = some "\x7b\x7d"
    ∧ (SaveRepo (some old) repo false).manifest = repo.Manifest :=
  ⟨rfl, rfl⟩

/-- C2 (code bug): the Verified-preservation logic of `utils.UpdateRepo`
is inverted.  Re-analysing a record whose stored categories contain
`Verified` yields a categories value WITHOUT `Verified`, while a record
that never had the tag gets it appended. -/
theorem updateRepoCategories_inverts_verified :
    ((splitOnChar ',' (updateRepoCategories "Developer Tools,Verified" "Productivity")).contains
        "Verified") = false
    ∧ ((splitOnChar ',' (updateRepoCategories "Developer Tools" "Productivity")).contains
        "Verified") = true := by
  constructor <;> decide

/-- C7: a README containing none of the substrings `mcpServers`, `npx`,
`docker`, `uv` makes `AddRepo` return the "no MCP server found" error with
an empty store-effect trace: the store is neither read nor written, so no
record is persisted or updated for the candidate. -/
theorem addRepo_keyword_rejection (gh : GithubRepo) (path readmeContent : String)
    (force : Bool) (store : Option RepoRow) (oracleResult : Except String MCPServerManifest)
    (backfillResult : Except String String) (codec : JsonCodec)
    (h1 : strContains readmeContent "mcpServers" = false)
    (h2 : strContains readmeContent "npx" = false)
    (h3 : strContains readmeContent "docker" = false)
    (h4 : strContains readmeContent "uv" = false) :
    AddRepo gh path readmeContent force store oracleResult backfillResult codec
      = (.error ("no MCP server found in repository " ++ computeFullName gh.FullName path),
         store, []) := by
  unfold AddRepo
  simp [readmeRejected, h1, h2, h3, h4]

/-- Witness for C7 at a concrete README with none of the keywords. -/
theorem addRepo_keyword_rejection_witness :
    strContains "plain text readme" "mcpServers" = false
    ∧ AddRepo {} "README.md" "plain text readme" false none (.error "x") (.error "y")
        { marshalConfigs := fun _ => "[]", marshalMeta := fun _ => "\x7b\x7d",
          unmarshalMeta := fun _ => .ok [], parseManifest := fun _ => .error "p" }
        = (.error ("no MCP server found in repository " ++ computeFullName "" "README.md"),
           none, []) :=
  ⟨by decide,
   addRepo_keyword_rejection {} "README.md" "plain text readme" false none (.error "x")
     (.error "y")
     { marshalConfigs := fun _ => "[]", marshalMeta := fun _ => "\x7b\x7d",
       unmarshalMeta := fun _ => .ok [], parseManifest := fun _ => .error "p" }
     (by decide) (by decide) (by decide) (by decide)⟩

/-- C1: re-ingesting a candidate whose stored record has a non-empty,
non-placeholder accepted manifest with `force = false` (and a changed
README, a README passing the keyword pre-filter, a successful analysis
with at least one config, and a successful backfill where invoked) writes
the marshalled analysis result into `proposedManifest` while the stored
`manifest` column is byte-for-byte unchanged. -/
theorem addRepo_propose_preserves_manifest (gh : GithubRepo) (path readmeContent : String)
    (row : RepoRow) (analysis : MCPServerManifest) (td : String) (codec : JsonCodec)
    (hkw : readmeRejected readmeContent = false)
    (hrd : (row.readmeContent == readmeContent) = false)
    (hman : (row.manifest == "" || row.manifest == "\x7b\x7d") = false)
    (hcfg : (analysis.Configs.length == 0) = false) :
    ∃ row',
      AddRepo gh path readmeContent false (some row) (.ok analysis) (.ok td) codec
        = (.ok (), some row', [.read, .read, .write])
      ∧ row'.manifest = row.manifest
      ∧ row'.proposedManifest = some (codec.marshalConfigs (MarkPreferred analysis.Configs)) := by
  unfold AddRepo
  simp only [repoInfoFromDB, hkw, hrd, hman, hcfg, Bool.false_eq_true, if_false,
    Option.isSome_some, Bool.true_and, Bool.not_false, Bool.and_true, Bool.false_or,
    Bool.or_false, Bool.not_true, Bool.and_false, Bool.false_and, if_true,
    beq_self_eq_true]
  obtain ⟨ri, heq, hpm, hm, hmd, hdn⟩ :=
    ingestFinish_ok _ _ _ _ _ _ _ _ _
  rw [heq]
  refine ⟨SaveRepo (some row) ri true, by simp, rfl, ?_⟩
  show some ri.ProposedManifest = _
  rw [hpm]

/-- Witness for C1 at concrete inputs. -/
theorem addRepo_propose_preserves_manifest_witness :
    (readmeRejected "fresh readme npx" = false
      ∧ (sampleRow.readmeContent == "fresh readme npx") = false
      ∧ (sampleRow.manifest == "" || sampleRow.manifest == "\x7b\x7d") = false)
    ∧ ∃ row',
        AddRepo sampleGithubRepo "README.md" "fresh readme npx" false (some sampleRow)
            (.ok { Configs := [{ Command := "npx" }] }) (.ok "[tools]") sampleCodec
          = (.ok (), some row', [.read, .read, .write])
        ∧ row'.manifest = sampleRow.manifest
        ∧ row'.proposedManifest
            = some (sampleCodec.marshalConfigs (MarkPreferred [{ Command := "npx" }])) :=
  ⟨⟨by decide, by decide, by decide⟩,
   addRepo_propose_preserves_manifest sampleGithubRepo "README.md" "fresh readme npx"
     sampleRow { Configs := [{ Command := "npx" }] } "[tools]" sampleCodec
     (by decide) (by decide) (by decide) (by decide)⟩

/-- C4: when the tool-definition backfill is reached (a preferred config
was selected and the stored tool definitions are empty/placeholder, or
`force` is set) and fails, `AddRepo` returns the error with the store
untouched and no write in the effect trace: the single `SaveRepo` persist
never runs. -/
theorem addRepo_backfill_failure_persists_nothing (gh : GithubRepo)
    (path readmeContent : String) (force : Bool) (store : Option RepoRow)
    (analysis : MCPServerManifest) (e : String) (codec : JsonCodec)
    (hkw : readmeRejected readmeContent = false)
    (hskip : (store.isSome && (repoInfoFromDB store).ReadmeContent == readmeContent && !force)
        = false)
    (hcfg : (analysis.Configs.length == 0) = false)
    (hfp : ((MarkPreferred analysis.Configs).any fun c => c.Preferred) = true)
    (htd : ((repoInfoFromDB store).ToolDefinitions == ""
        || (repoInfoFromDB store).ToolDefinitions == "\x7b\x7d" || force) = true) :
    AddRepo gh path readmeContent force store (.ok analysis) (.error e) codec
      = (.error ("error scraping tool definitions for repository "
            ++ computeFullName gh.FullName path ++ ": " ++ e),
         store, [.read]) := by
  unfold AddRepo
  simp only [hkw, Bool.false_eq_true, if_false, hskip, hcfg, apply_ite RepoInfo.Metadata,
    ite_self, beq_self_eq_true, if_true]
  rw [ingestFinish_backfill_error _ _ _ _ _ _ _ _ _ hfp htd]

/-- Witness for C4 at concrete inputs (stored tool definitions empty, so
the backfill runs and its failure aborts the ingestion). -/
theorem addRepo_backfill_failure_witness :
    (readmeRejected "fresh readme npx" = false
      ∧ (((some { sampleRow with toolDefinitions := "" } : Option RepoRow).isSome
            && (repoInfoFromDB (some { sampleRow with toolDefinitions := "" })).ReadmeContent
              == "fresh readme npx" && !false) = false)
      ∧ (((MCPServerManifest.mk "" "" "" [{ Command := "npx" }]).Configs.length == 0) = false)
      ∧ (((MarkPreferred (MCPServerManifest.mk "" "" "" [{ Command := "npx" }]).Configs).any
            fun c => c.Preferred) = true))
    ∧ AddRepo sampleGithubRepo "README.md" "fresh readme npx" false
        (some { sampleRow with toolDefinitions := "" })
        (.ok (MCPServerManifest.mk "" "" "" [{ Command := "npx" }])) (.error "rate limited")
        sampleCodec
      = (.error ("error scraping tool definitions for repository "
            ++ computeFullName sampleGithubRepo.FullName "README.md" ++ ": " ++ "rate limited"),
         some { sampleRow with toolDefinitions := "" }, [.read]) :=
  ⟨⟨by decide, by decide, by decide, by decide⟩,
   addRepo_backfill_failure_persists_nothing sampleGithubRepo "README.md" "fresh readme npx"
     false (some { sampleRow with toolDefinitions := "" })
     (MCPServerManifest.mk "" "" "" [{ Command := "npx" }]) "rate limited" sampleCodec
     (by decide) (by decide) (by decide) (by decide) (by decide)⟩

/-- C3 counterexample: at a concrete candidate whose oracle call fails
(`AnalyzeWithOpenAI` returns an error), `AddRepo` does NOT abort: it
returns success, performs a store write (`SaveRepo` is reached), and the
stored row changes — contradicting the claim that a failed oracle call
aborts the ingestion without persisting and propagates an error. -/
theorem addRepo_oracle_error_cex :
    (AddRepo sampleGithubRepo "README.md" "fresh readme npx" false (some sampleRow)
        (AnalyzeWithOpenAI sampleCodec (.error "connection reset")) (.ok "[tools]")
        sampleCodec).1 = .ok ()
    ∧ (AddRepo sampleGithubRepo "README.md" "fresh readme npx" false (some sampleRow)
        (AnalyzeWithOpenAI sampleCodec (.error "connection reset")) (.ok "[tools]")
        sampleCodec).2.2 = [.read, .read, .write]
    ∧ (AddRepo sampleGithubRepo "README.md" "fresh readme npx" false (some sampleRow)
        (AnalyzeWithOpenAI sampleCodec (.error "connection reset")) (.ok "[tools]")
        sampleCodec).2.1 ≠ some sampleRow := by
  refine ⟨rfl, rfl, by decide⟩

/-- C3 amended: an oracle-call failure (API error, empty choice list, or
unparseable JSON — every case in which `AnalyzeWithOpenAI` returns an
error) is only logged: `AddRepo` continues, reaches the single `SaveRepo`
persist with the analysis-derived fields (manifest, proposed manifest,
metadata, display name) left at their zero values, and returns success.
Only a successful oracle response with zero configs aborts the ingestion
without persisting, propagating the "no MCP server found" error. -/
theorem addRepo_oracle_failure_behavior (gh : GithubRepo) (path readmeContent : String)
    (force : Bool) (store : Option RepoRow) (backfillResult : Except String String)
    (codec : JsonCodec)
    (hkw : readmeRejected readmeContent = false)
    (hskip : (store.isSome && (repoInfoFromDB store).ReadmeContent == readmeContent && !force)
        = false) :
    (∀ e, ∃ p ri,
      AddRepo gh path readmeContent force store (.error e) backfillResult codec
        = (.ok (), some (SaveRepo store ri p), [.read, .read, .write])
      ∧ ri.Manifest = "" ∧ ri.ProposedManifest = "" ∧ ri.Metadata = "" ∧ ri.DisplayName = "")
    ∧ (∀ analysis : MCPServerManifest, analysis.Configs = [] →
        AddRepo gh path readmeContent force store (.ok analysis) backfillResult codec
          = (.error ("no MCP server found in repository " ++ computeFullName gh.FullName path),
             store, [.read])) := by
  constructor
  · intro e
    unfold AddRepo
    simp only [hkw, Bool.false_eq_true, if_false, hskip]
    obtain ⟨ri, heq, hpm, hm, hmd, hdn⟩ :=
      ingestFinish_no_preferred _ [] _ _ backfillResult _ _ _ [.read] (by simp)
    rw [heq]
    exact ⟨_, ri, rfl, hm, hpm, hmd, hdn⟩
  · intro analysis hc
    unfold AddRepo
    simp only [hkw, Bool.false_eq_true, if_false, hskip, hc]
    simp

/-- Witness for the amended C3 at concrete inputs. -/
theorem addRepo_oracle_failure_behavior_witness :
    (readmeRejected "fresh readme npx" = false
      ∧ (((some sampleRow : Option RepoRow).isSome
            && (repoInfoFromDB (some sampleRow)).ReadmeContent == "fresh readme npx"
            && !false) = false))
    ∧ ((∀ e, ∃ p ri,
        AddRepo sampleGithubRepo "README.md" "fresh readme npx" false (some sampleRow)
            (.error e) (.ok "[tools]") sampleCodec
          = (.ok (), some (SaveRepo (some sampleRow) ri p), [.read, .read, .write])
        ∧ ri.Manifest = "" ∧ ri.ProposedManifest = "" ∧ ri.Metadata = ""
        ∧ ri.DisplayName = "")
      ∧ (∀ analysis : MCPServerManifest, analysis.Configs = [] →
          AddRepo sampleGithubRepo "README.md" "fresh readme npx" false (some sampleRow)
              (.ok analysis) (.ok "[tools]") sampleCodec
            = (.error ("no MCP server found in repository "
                  ++ computeFullName sampleGithubRepo.FullName "README.md"),
               some sampleRow, [.read]))) :=
  ⟨⟨by decide, by decide⟩,
   addRepo_oracle_failure_behavior sampleGithubRepo "README.md" "fresh readme npx" false
     (some sampleRow) (.ok "[tools]") sampleCodec (by decide) (by decide)⟩

/-- C5: re-running ingestion with `force = false` against a stored record
whose `readmeContent` equals the freshly fetched README leaves the stored
row unchanged — except that the refactored `AddRepo` fills a previously
empty `icon` with the owner's avatar URL.  Covers both snapshots of
`AddRepo`: the inline one changes nothing at all, the refactored one at
most fills the icon. -/
theorem addRepo_unchanged_readme_idempotent (gh : GithubRepo) (path readmeContent : String)
    (row : RepoRow) (oracleResult : Except String MCPServerManifest)
    (backfillResult : Except String String) (codec : JsonCodec)
    (hrd : row.readmeContent = readmeContent) :
    (AddRepo gh path readmeContent false (some row) oracleResult backfillResult codec).2.1
        = some row
    ∧ ((AddRepoV2 gh path readmeContent false (some row) oracleResult backfillResult
          codec).2.1 = some row
       ∨ (row.icon = ""
          ∧ (AddRepoV2 gh path readmeContent false (some row) oracleResult backfillResult
              codec).2.1 = some { row with icon := gh.OwnerAvatarURL })) := by
  by_cases hk : readmeRejected readmeContent
  · constructor
    · unfold AddRepo
      simp [hk]
    · left
      unfold AddRepoV2
      simp [hk]
  · constructor
    · unfold AddRepo
      simp [hk, repoInfoFromDB, hrd]
    · unfold AddRepoV2
      by_cases hic : row.icon == ""
      · right
        exact ⟨by simpa using hic, by simp [hk, hrd, hic]⟩
      · left
        simp [hk, hrd, hic]

/-- C6 counterexample: `MarkPreferred` never clears a pre-set flag, so a
list that already carries `preferred = true` on a non-npx entry ends up
with TWO preferred entries once the npx entry is marked — the claim's
"at most one entry has preferred = true" fails for such input lists. -/
theorem markPreferred_preexisting_flag_cex :
    ¬ ((MarkPreferred
          [{ Command := "filesystem", Preferred := true }, { Command := "npx" }]).countP
        (fun c => c.Preferred) ≤ 1) := by
  decide

/-- C6 amended: for a config list with no pre-set `preferred` flag (which
is what the extraction step hands over), after `MarkPreferred` at most one
entry is preferred; if any `npx` entry exists exactly one entry is marked
and it is an `npx` entry; otherwise a `uv`/`uvx` entry if any; otherwise a
`docker` entry if any; otherwise no entry is marked. -/
theorem markPreferred_priority (configs : List MCPServerConfig)
    (hall : ∀ c ∈ configs, c.Preferred = false) :
    (MarkPreferred configs).countP (fun c => c.Preferred) ≤ 1
    ∧ ((configs.any fun c => c.Command == "npx") = true →
        (MarkPreferred configs).countP (fun c => c.Preferred) = 1
        ∧ ∀ c ∈ MarkPreferred configs, c.Preferred = true → c.Command = "npx")
    ∧ ((configs.any fun c => c.Command == "npx") = false →
        (configs.any fun c => c.Command == "uv" || c.Command == "uvx") = true →
        (MarkPreferred configs).countP (fun c => c.Preferred) = 1
        ∧ ∀ c ∈ MarkPreferred configs, c.Preferred = true →
            (c.Command = "uv" ∨ c.Command = "uvx"))
    ∧ ((configs.any fun c => c.Command == "npx") = false →
        (configs.any fun c => c.Command == "uv" || c.Command == "uvx") = false →
        (configs.any fun c => c.Command == "docker") = true →
        (MarkPreferred configs).countP (fun c => c.Preferred) = 1
        ∧ ∀ c ∈ MarkPreferred configs, c.Preferred = true → c.Command = "docker")
    ∧ ((configs.any fun c => c.Command == "npx") = false →
        (configs.any fun c => c.Command == "uv" || c.Command == "uvx") = false →
        (configs.any fun c => c.Command == "docker") = false →
        (MarkPreferred configs).countP (fun c => c.Preferred) = 0) := by
  have hanyF : ∀ p : MCPServerConfig → Bool, firstIdxWith p configs = none →
      configs.any p = false := by
    intro p hn
    rw [List.any_eq_false]
    intro x hx
    simp [(firstIdxWith_eq_none p configs).mp hn x hx]
  have hgetAny : ∀ (p : MCPServerConfig → Bool) (i : Nat) (hi : i < configs.length),
      p (configs.get ⟨i, hi⟩) = true → configs.any p = true := by
    intro p i hi hp
    rw [List.any_eq_true]
    exact ⟨configs.get ⟨i, hi⟩, List.get_mem _ _ _, hp⟩
  cases h1 : firstIdxWith (fun c => c.Command == "npx") configs with
  | some i =>
    have hmp : MarkPreferred configs = setPreferredAt configs i := by
      unfold MarkPreferred
      rw [h1]
    obtain ⟨hi, hp⟩ := firstIdxWith_eq_some _ _ _ h1
    obtain ⟨hc1, hmk⟩ :=
      setPreferredAt_spec configs i (fun c => c.Command == "npx") hall hi hp (fun c => rfl)
    have hanyT := hgetAny (fun c => c.Command == "npx") i hi hp
    refine ⟨by rw [hmp, hc1], fun _ => ⟨by rw [hmp]; exact hc1, ?_⟩,
      fun hn _ => absurd (hn ▸ hanyT) (by decide),
      fun hn _ _ => absurd (hn ▸ hanyT) (by decide),
      fun hn _ _ => absurd (hn ▸ hanyT) (by decide)⟩
    intro c hc hcp
    have := hmk c (hmp ▸ hc) hcp
    simpa [beq_iff_eq] using this
  | none =>
    have hnF := hanyF _ h1
    cases h2 : firstIdxWith (fun c => c.Command == "uv" || c.Command == "uvx") configs with
    | some i =>
      have hmp : MarkPreferred configs = setPreferredAt configs i := by
        unfold MarkPreferred
        rw [h1, h2]
      obtain ⟨hi, hp⟩ := firstIdxWith_eq_some _ _ _ h2
      obtain ⟨hc1, hmk⟩ :=
        setPreferredAt_spec configs i (fun c => c.Command == "uv" || c.Command == "uvx")
          hall hi hp (fun c => rfl)
      have hanyT := hgetAny (fun c => c.Command == "uv" || c.Command == "uvx") i hi hp
      refine ⟨by rw [hmp, hc1], fun ht => absurd (hnF ▸ ht) (by decide),
        fun _ _ => ⟨by rw [hmp]; exact hc1, ?_⟩,
        fun _ hn _ => absurd (hn ▸ hanyT) (by decide),
        fun _ hn _ => absurd (hn ▸ hanyT) (by decide)⟩
      intro c hc hcp
      have := hmk c (hmp ▸ hc) hcp
      simpa [beq_iff_eq] using this
    | none =>
      have huF := hanyF _ h2
      cases h3 : firstIdxWith (fun c => c.Command == "docker") configs with
      | some i =>
        have hmp : MarkPreferred configs = setPreferredAt configs i := by
          unfold MarkPreferred
          rw [h1, h2, h3]
        obtain ⟨hi, hp⟩ := firstIdxWith_eq_some _ _ _ h3
        obtain ⟨hc1, hmk⟩ :=
          setPreferredAt_spec configs i (fun c => c.Command == "docker") hall hi hp
            (fun c => rfl)
        have hanyT := hgetAny (fun c => c.Command == "docker") i hi hp
        refine ⟨by rw [hmp, hc1], fun ht => absurd (hnF ▸ ht) (by decide),
          fun _ ht => absurd (huF ▸ ht) (by decide),
          fun _ _ _ => ⟨by rw [hmp]; exact hc1, ?_⟩,
          fun _ _ hn => absurd (hn ▸ hanyT) (by decide)⟩
        intro c hc hcp
        have := hmk c (hmp ▸ hc) hcp
        simpa [beq_iff_eq] using this
      | none =>
        have hdF := hanyF _ h3
        have hmp : MarkPreferred configs = configs := by
          unfold MarkPreferred
          rw [h1, h2, h3]
        have hzero : configs.countP (fun c => c.Preferred) = 0 :=
          List.countP_eq_zero.mpr fun c hc => by simp [hall c hc]
        exact ⟨by rw [hmp, hzero]; exact Nat.zero_le 1,
          fun ht => absurd (hnF ▸ ht) (by decide),
          fun _ ht => absurd (huF ▸ ht) (by decide),
          fun _ _ ht => absurd (hdF ▸ ht) (by decide),
          fun _ _ _ => by rw [hmp, hzero]⟩

/-- Witness for the amended C6 at a concrete all-unmarked config list. -/
theorem markPreferred_priority_witness :
    (∀ c ∈ [({ Command := "docker" } : MCPServerConfig), { Command := "npx" }],
        c.Preferred = false)
    ∧ (MarkPreferred [({ Command := "docker" } : MCPServerConfig), { Command := "npx" }]).countP
        (fun c => c.Preferred) ≤ 1 :=
  ⟨by decide,
   (markPreferred_priority [{ Command := "docker" }, { Command := "npx" }] (by decide)).1⟩

/-- Witness for C5 at concrete inputs (empty stored icon, so the
refactored skip path fills it). -/
theorem addRepo_unchanged_readme_idempotent_witness :
    (sampleRow.readmeContent = "old readme npx")
    ∧ ((AddRepo sampleGithubRepo "README.md" "old readme npx" false (some sampleRow)
          (.error "unused") (.error "unused") sampleCodec).2.1 = some sampleRow
      ∧ ((AddRepoV2 sampleGithubRepo "README.md" "old readme npx" false (some sampleRow)
            (.error "unused") (.error "unused") sampleCodec).2.1 = some sampleRow
         ∨ (sampleRow.icon = ""
            ∧ (AddRepoV2 sampleGithubRepo "README.md" "old readme npx" false (some sampleRow)
                (.error "unused") (.error "unused") sampleCodec).2.1
              = some { sampleRow with icon := sampleGithubRepo.OwnerAvatarURL }))) :=
  ⟨by decide,
   addRepo_unchanged_readme_idempotent sampleGithubRepo "README.md" "old readme npx" sampleRow
     (.error "unused") (.error "unused") sampleCodec (by decide)⟩

/-- Counting with pointwise-equal predicates gives equal counts. -/
theorem countP_congrMem {α : Type} (l : List α) (p q : α → Bool)
    (h : ∀ a ∈ l, p a = q a) : l.countP p = l.countP q := by
  induction l with
  | nil => simp
  | cons a t ih =>
    simp [List.countP_cons, h a (List.mem_cons_self _ _),
      ih fun b hb => h b (List.mem_cons_of_mem _ hb)]

/-- Every element surviving the dedup loop comes from the input list. -/
theorem dedupLoop_mem (rs : List CodeResult) (seen : List String) (r : CodeResult)
    (h : r ∈ dedupLoop rs seen) : r ∈ rs := by
  induction rs generalizing seen with
  | nil => simp [dedupLoop] at h
  | cons a t ih =>
    by_cases hk : dedupKey a ∈ seen
    · simp only [dedupLoop, hk, if_true] at h
      exact List.mem_cons_of_mem _ (ih _ h)
    · simp only [dedupLoop, hk, if_false, List.mem_cons] at h
      rcases h with rfl | h
      · exact List.mem_cons_self _ _
      · exact List.mem_cons_of_mem _ (ih _ h)

/-- Keys already in `seen` never reappear in the dedup loop's output. -/
theorem dedupLoop_countP_seen (rs : List CodeResult) (k : String) (seen : List String)
    (hk : k ∈ seen) :
    (dedupLoop rs seen).countP (fun r => dedupKey r == k) = 0 := by
  induction rs generalizing seen with
  | nil => simp [dedupLoop]
  | cons a t ih =>
    by_cases ha : dedupKey a ∈ seen
    · simp only [dedupLoop, ha, if_true]
      exact ih seen hk
    · have hne : (dedupKey a == k) = false := by
        rw [beq_eq_false_iff_ne]
        intro he
        exact ha (he ▸ hk)
      simp only [dedupLoop, ha, if_false, List.countP_cons, hne, if_false]
      simpa using ih (dedupKey a :: seen) (List.mem_cons_of_mem _ hk)

/-- A key that is not yet seen and occurs in the input appears exactly
once in the dedup loop's output. -/
theorem dedupLoop_countP_new (rs : List CodeResult) (k : String) (seen : List String)
    (hk : k ∉ seen) (hex : ∃ r ∈ rs, dedupKey r = k) :
    (dedupLoop rs seen).countP (fun r => dedupKey r == k) = 1 := by
  induction rs generalizing seen with
  | nil => simp at hex
  | cons a t ih =>
    by_cases ha : dedupKey a ∈ seen
    · have hex' : ∃ r ∈ t, dedupKey r = k := by
        obtain ⟨r, hr, hrk⟩ := hex
        rcases List.mem_cons.mp hr with rfl | hrt
        · exact absurd (hrk ▸ ha) hk
        · exact ⟨r, hrt, hrk⟩
      simp only [dedupLoop, ha, if_true]
      exact ih seen hk hex'
    · by_cases hak : dedupKey a = k
      · have hT : (dedupKey a == k) = true := by simpa using hak
        simp only [dedupLoop, ha, if_false, List.countP_cons, hT, if_true]
        have : (dedupLoop t (dedupKey a :: seen)).countP (fun r => dedupKey r == k) = 0 :=
          dedupLoop_countP_seen t k (dedupKey a :: seen) (by simp [hak])
        simp [this]
      · have hF : (dedupKey a == k) = false := by simpa using hak
        have hex' : ∃ r ∈ t, dedupKey r = k := by
          obtain ⟨r, hr, hrk⟩ := hex
          rcases List.mem_cons.mp hr with rfl | hrt
          · exact absurd hrk hak
          · exact ⟨r, hrt, hrk⟩
        have hk' : k ∉ dedupKey a :: seen := by
          simp only [List.mem_cons, not_or]
          exact ⟨fun he => hak he.symm, hk⟩
        simp only [dedupLoop, ha, if_false, List.countP_cons, hF, if_false]
        simpa using ih (dedupKey a :: seen) hk' hex'

/-- C8 counterexample: the composite dedup key is built by plain string
concatenation with `":"`, so two DISTINCT (full name, path) pairs can
collide; the loop then keeps only one of them, and the claim "exactly one
candidate per distinct pair" fails: the pair `("a", "b:c")` occurs in the
input but has no representative in the output. -/
theorem dedupRepos_collision_cex :
    (∃ r ∈ [({ fullName := "a:b", path := "c" } : CodeResult),
            { fullName := "a", path := "b:c" }],
        r.fullName = "a" ∧ r.path = "b:c")
    ∧ ¬ ((dedupRepos [({ fullName := "a:b", path := "c" } : CodeResult),
            { fullName := "a", path := "b:c" }]).countP
          (fun r => r.fullName == "a" && r.path == "b:c") = 1) := by
  constructor
  · exact ⟨{ fullName := "a", path := "b:c" }, by decide, rfl, rfl⟩
  · decide

/-- C8 amended: provided the composite keys `fullName ++ ":" ++ path` do
not collide for distinct (full name, path) pairs of the input (true for
real repository names, which never contain `":"`), the dedup step keeps
exactly one candidate per distinct pair, every survivor being one of the
collected results. -/
theorem dedupRepos_unique (rs : List CodeResult)
    (hinj : ∀ r1 ∈ rs, ∀ r2 ∈ rs, dedupKey r1 = dedupKey r2 →
        r1.fullName = r2.fullName ∧ r1.path = r2.path)
    (n p : String) (hex : ∃ r ∈ rs, r.fullName = n ∧ r.path = p) :
    (dedupRepos rs).countP (fun r => r.fullName == n && r.path == p) = 1
    ∧ ∀ r ∈ dedupRepos rs, r ∈ rs := by
  obtain ⟨r0, hr0, hn0, hp0⟩ := hex
  have hkey0 : dedupKey r0 = n ++ ":" ++ p := by
    simp [dedupKey, hn0, hp0]
  have hmem : ∀ r ∈ dedupRepos rs, r ∈ rs := fun r hr => dedupLoop_mem rs [] r hr
  refine ⟨?_, hmem⟩
  have hpt : ∀ r ∈ dedupRepos rs,
      (r.fullName == n && r.path == p) = (dedupKey r == n ++ ":" ++ p) := by
    intro r hr
    by_cases h : r.fullName = n ∧ r.path = p
    · have : dedupKey r = n ++ ":" ++ p := by simp [dedupKey, h.1, h.2]
      simp [h.1, h.2, this]
    · have hkf : (dedupKey r == n ++ ":" ++ p) = false := by
        rw [beq_eq_false_iff_ne]
        intro hke
        have hb := hinj r (hmem r hr) r0 hr0 (by rw [hke, hkey0])
        exact h ⟨hb.1.trans hn0, hb.2.trans hp0⟩
      rw [hkf]
      rw [not_and_or] at h
      rcases h with h | h
      · simp [beq_eq_false_iff_ne, h]
      · simp [beq_eq_false_iff_ne, h]
  rw [countP_congrMem _ _ _ hpt]
  exact dedupLoop_countP_new rs (n ++ ":" ++ p) [] (by simp) ⟨r0, hr0, hkey0⟩

/-- Witness for the amended C8 at a concrete collision-free result list
with a duplicate pair. -/
theorem dedupRepos_unique_witness :
    ((∀ r1 ∈ [({ fullName := "octo/mcp", path := "README.md" } : CodeResult),
              { fullName := "octo/mcp", path := "README.md" },
              { fullName := "octo/other", path := "sub/README.md" }],
        ∀ r2 ∈ [({ fullName := "octo/mcp", path := "README.md" } : CodeResult),
              { fullName := "octo/mcp", path := "README.md" },
              { fullName := "octo/other", path := "sub/README.md" }],
          dedupKey r1 = dedupKey r2 → r1.fullName = r2.fullName ∧ r1.path = r2.path)
      ∧ (∃ r ∈ [({ fullName := "octo/mcp", path := "README.md" } : CodeResult),
              { fullName := "octo/mcp", path := "README.md" },
              { fullName := "octo/other", path := "sub/README.md" }],
          r.fullName = "octo/mcp" ∧ r.path = "README.md"))
    ∧ (dedupRepos [({ fullName := "octo/mcp", path := "README.md" } : CodeResult),
              { fullName := "octo/mcp", path := "README.md" },
              { fullName := "octo/other", path := "sub/README.md" }]).countP
        (fun r => r.fullName == "octo/mcp" && r.path == "README.md") = 1 :=
  ⟨⟨by decide, by decide⟩,
   (dedupRepos_unique
     [{ fullName := "octo/mcp", path := "README.md" },
      { fullName := "octo/mcp", path := "README.md" },
      { fullName := "octo/other", path := "sub/README.md" }]
     (by decide) "octo/mcp" "README.md" (by decide)).1⟩

end CatalogService
